import Mathlib

/-!
Shallow embedding of `scripts/generate_apk_metrics_dashboard.py`:
the size/count token parsers (`parse_size_value`, `parse_number_value`),
the slim-report parser (`parse_diffuse_slim_report`) with its fixed
regular expressions modelled as deterministic scanners, and the timeline
builder (`build_cumulative_data`).

Modelling conventions:
  * Python `str` is modelled as `List Char`.
  * Python `float` arithmetic is modelled with `ℚ`; every numeric value
    appearing in the verified statements is produced by exact decimal
    parsing followed by division by powers of two, for which rational
    arithmetic mirrors IEEE double equality.
  * A raised exception is modelled as `Except.error`; `None` results are
    `Option.none`.
  * Each `re.search` call of the source is modelled by a hand-derived
    deterministic scanner.  The patterns involved contain only literals,
    character classes and lazy stars followed by literals, so the
    backtracking search is equivalent to repeated leftmost literal
    scanning; this equivalence was checked against CPython `re` on the
    row formats the script documents.
-/

/-- Python `\s` on the ASCII range (the report format is ASCII plus
box-drawing glyphs, none of which are whitespace). -/
def pyIsSpace (c : Char) : Bool :=
  c = ' ' || c = '\t' || c = '\n' || c = '\r' || c = '\x0b' || c = '\x0c'

/-- The character class `[\d.]` of the size regex. -/
def isDigitDot (c : Char) : Bool := c.isDigit || c = '.'

/-- Python `str.strip()`: drop leading and trailing whitespace. -/
def pyStrip (l : List Char) : List Char :=
  ((l.dropWhile pyIsSpace).reverse.dropWhile pyIsSpace).reverse

/-- Decimal digit run to a natural number, most significant first. -/
def digitsToNat (l : List Char) : ℕ :=
  l.foldl (fun a c => 10 * a + (c.toNat - 48)) 0

/-- Python `str.split(sep)` with an explicit separator (no collapsing). -/
def splitOnSep (sep : Char) : List Char → List (List Char)
  | [] => [[]]
  | c :: rest =>
    match splitOnSep sep rest, decide (c = sep) with
    | r, true => [] :: r
    | [], false => [[c]]
    | h :: t, false => (c :: h) :: t

/-- An exact model of the (finite, non-negative) Python floats this
script produces: a plain fraction, kept unnormalised so that every
operation is kernel-computable.  Python float equality is value
equality, and the only float test the script performs is truthiness
(zero-ness), which is `n = 0` here; the embedding `val` into `ℚ` gives
the value a fraction denotes. -/
structure PyFloat where
  n : ℕ
  d : ℕ
deriving DecidableEq, Repr

/-- The rational value a `PyFloat` denotes.  All fractions built by the
parser have denominators of the form `10^a * 2^b`, for which rational
equality coincides with IEEE-double equality of the corresponding
Python floats. -/
def val (p : PyFloat) : ℚ := (p.n : ℚ) / (p.d : ℚ)

/-- Python `float(s)` restricted to strings drawn from `[\d.]+`:
defined iff the run has at least one digit and at most one dot.
`None` models the `ValueError` raise.  The decimal `ip.fp` denotes
`(ip * 10^|fp| + fp) / 10^|fp|`. -/
def pyFloat (l : List Char) : Option PyFloat :=
  if l.any Char.isDigit && l.count '.' ≤ 1 && l.all isDigitDot then
    some
      ⟨digitsToNat (l.takeWhile (fun c => !(c = '.'))) *
          10 ^ ((l.dropWhile (fun c => !(c = '.'))).drop 1).length +
        digitsToNat ((l.dropWhile (fun c => !(c = '.'))).drop 1),
        10 ^ ((l.dropWhile (fun c => !(c = '.'))).drop 1).length⟩
  else none

/-- The three unit suffixes accepted by the size regex. -/
inductive SizeUnit where
  | mib | kib | b
deriving DecidableEq, Repr

/-- The characters of a unit suffix. -/
def unitChars : SizeUnit → List Char
  | .mib => ['M', 'i', 'B']
  | .kib => ['K', 'i', 'B']
  | .b => ['B']

/-- The alternation `(MiB|KiB|B)` tested at one position. -/
def matchSizeUnit : List Char → Option SizeUnit
  | 'M' :: 'i' :: 'B' :: _ => some .mib
  | 'K' :: 'i' :: 'B' :: _ => some .kib
  | 'B' :: _ => some .b
  | _ => none

/-- Model of `re.search(r'([\d.]+)\s*(MiB|KiB|B)', s)`: leftmost start whose
greedy `[\d.]+` run, after optional whitespace, is followed by a unit. -/
def searchSize : List Char → Option (List Char × SizeUnit)
  | [] => none
  | c :: rest =>
    if isDigitDot c then
      match matchSizeUnit (((c :: rest).dropWhile isDigitDot).dropWhile pyIsSpace) with
      | some u => some ((c :: rest).takeWhile isDigitDot, u)
      | none => searchSize rest
    else searchSize rest

/-- The unit conversion of `parse_size_value`: pass `MiB` through,
divide `KiB` by `1024`, divide `B` by `1024 * 1024`. -/
def convUnit : SizeUnit → PyFloat → PyFloat
  | .mib, v => v
  | .kib, v => ⟨v.n, v.d * 1024⟩
  | .b, v => ⟨v.n, v.d * (1024 * 1024)⟩

/-- The function `parse_size_value` from the script.  `.ok none` models returning
`None`, `.error ()` models the `ValueError` escaping from `float`. -/
def parse_size_value (s : List Char) : Except Unit (Option PyFloat) :=
  if s = [] then .ok none
  else
    match searchSize (pyStrip s) with
    | none => .ok none
    | some (run, u) =>
      match pyFloat run with
      | none => .error ()
      | some v => .ok (some (convUnit u v))

/-- Auxiliary length bound for termination arguments. -/
theorem len_dropWhile_le (p : Char → Bool) (l : List Char) :
    (l.dropWhile p).length ≤ l.length := by
  induction l with
  | nil => simp [List.dropWhile]
  | cons c rest ih =>
    by_cases h : p c
    · simp [List.dropWhile, h]; omega
    · simp [List.dropWhile, h]

/-- The digits collected by the group `(?:,\d+)*`: each iteration needs a
comma followed by a nonempty digit run; commas are dropped, mirroring
`group(1).replace(',', '')`. -/
def commaDigits : List Char → List Char
  | [] => []
  | c :: rest =>
    if c = ',' then
      if rest.takeWhile Char.isDigit = [] then []
      else rest.takeWhile Char.isDigit ++ commaDigits (rest.dropWhile Char.isDigit)
    else []
termination_by l => l.length
decreasing_by
  simp only [List.length_cons]
  have := len_dropWhile_le Char.isDigit rest
  omega

/-- Model of `re.search(r'([+-]?\d+(?:,\d+)*)', s)` converted to its integer
value: leftmost signed or unsigned digit run, commas removed. -/
def searchNum : List Char → Option ℤ
  | c :: rest =>
    if c = '+' || c = '-' then
      match rest.takeWhile Char.isDigit, rest.dropWhile Char.isDigit with
      | [], _ => searchNum rest
      | d :: ds, rest2 =>
        some (if c = '-' then
            -(digitsToNat ((d :: ds) ++ commaDigits rest2) : ℤ)
          else (digitsToNat ((d :: ds) ++ commaDigits rest2) : ℤ))
    else if c.isDigit then
      some (digitsToNat
        ((c :: rest).takeWhile Char.isDigit ++
          commaDigits ((c :: rest).dropWhile Char.isDigit)) : ℤ)
    else searchNum rest
  | [] => none

/-- The function `parse_number_value` from the script. -/
def parse_number_value (s : List Char) : Option ℤ :=
  if s = [] then none else searchNum (pyStrip s)

/-- Prefix test for a literal pattern. -/
def litPre : List Char → List Char → Bool
  | [], _ => true
  | _ :: _, [] => false
  | p :: ps, c :: cs => p = c && litPre ps cs

/-- Leftmost occurrence of a literal: the suffix just after it, if any. -/
def findLit (pat : List Char) : List Char → Option (List Char)
  | [] => if litPre pat [] then some ((([] : List Char)).drop pat.length) else none
  | c :: rest =>
    if litPre pat (c :: rest) then some ((c :: rest).drop pat.length)
    else findLit pat rest

/-- Whether a literal occurs somewhere in the text. -/
def hasLit (pat l : List Char) : Bool := (findLit pat l).isSome

/-- A nonempty run of characters matching `p` (the `+` quantifier):
the remainder after the run, if the run is nonempty. -/
def run1 (p : Char → Bool) (l : List Char) : Option (List Char) :=
  if l.takeWhile p = [] then none else some (l.dropWhile p)

/-- Tail of the header regex
`Diffuse Comparison:\s+([\d.]+)\s+→\s+([\d.]+)` after the literal:
returns the two captured version strings. -/
def vHeaderTail (l : List Char) : Option (List Char × List Char) := do
  let l1 ← run1 pyIsSpace l
  let g1 := l1.takeWhile isDigitDot
  if g1 = [] then none
  else do
    let l3 ← run1 pyIsSpace (l1.dropWhile isDigitDot)
    match l3 with
    | '→' :: l4 => do
      let l5 ← run1 pyIsSpace l4
      let g2 := l5.takeWhile isDigitDot
      if g2 = [] then none else some (g1, g2)
    | _ => none

/-- Model of `re.search(r'Diffuse Comparison:\s+([\d.]+)\s+→\s+([\d.]+)', c)`. -/
def searchVersionHeader : List Char → Option (List Char × List Char)
  | [] => none
  | c :: rest =>
    if litPre "Diffuse Comparison:".data (c :: rest) then
      match vHeaderTail ((c :: rest).drop 19) with
      | some r => some r
      | none => searchVersionHeader rest
    else searchVersionHeader rest

/-- Tail of `version code\s+│\s+(\d+)\s+│\s+(\d+)` after the literal. -/
def vCodeTail (l : List Char) : Option (ℤ × ℤ) := do
  let l1 ← run1 pyIsSpace l
  match l1 with
  | '│' :: l2 => do
    let l3 ← run1 pyIsSpace l2
    let d1 := l3.takeWhile Char.isDigit
    if d1 = [] then none
    else do
      let l5 ← run1 pyIsSpace (l3.dropWhile Char.isDigit)
      match l5 with
      | '│' :: l6 => do
        let l7 ← run1 pyIsSpace l6
        let d2 := l7.takeWhile Char.isDigit
        if d2 = [] then none
        else some ((digitsToNat d1 : ℤ), (digitsToNat d2 : ℤ))
      | _ => none
  | _ => none

/-- Model of `re.search(r'version code\s+│\s+(\d+)\s+│\s+(\d+)', c)`. -/
def searchVersionCode : List Char → Option (ℤ × ℤ)
  | [] => none
  | c :: rest =>
    if litPre "version code".data (c :: rest) then
      match vCodeTail ((c :: rest).drop 12) with
      | some r => some r
      | none => searchVersionCode rest
    else searchVersionCode rest

/-- The border-rule literal `───` looked for by the table regexes. -/
def litBorder : List Char := ['─', '─', '─']

/-- Final step of the APK table regex: the capture `(.*?)\n.*?───` with
`re.DOTALL`.  The lazy capture ends at the first newline that is still
followed by a border rule somewhere later; consequently the capture never
contains a newline.  If no newline with a later border exists the whole
match fails. -/
def captureUpToBorder : List Char → Option (List Char)
  | [] => none
  | c :: rest =>
    if c = '\n' then if hasLit litBorder rest then some [] else none
    else (captureUpToBorder rest).map (c :: ·)

/-- Chain of the APK regex after the `APK` literal:
`\s+│.*?compressed.*?│.*?uncompressed.*?\n.*?───.*?\n(.*?)\n.*?───`. -/
def apkTail (l : List Char) : Option (List Char) := do
  let l1 ← run1 pyIsSpace l
  match l1 with
  | '│' :: l2 => do
    let l3 ← findLit "compressed".data l2
    let l4 ← findLit ['│'] l3
    let l5 ← findLit "uncompressed".data l4
    let l6 ← findLit ['\n'] l5
    let l7 ← findLit litBorder l6
    let l8 ← findLit ['\n'] l7
    captureUpToBorder l8
  | _ => none

/-- The `re.search` for the APK size table. -/
def searchApkTable : List Char → Option (List Char)
  | [] => none
  | c :: rest =>
    if litPre "APK".data (c :: rest) then
      match apkTail ((c :: rest).drop 3) with
      | some cap => some cap
      | none => searchApkTable rest
    else searchApkTable rest

/-- Whether `\n\s*\n` matches at a position whose `\n` has just been
consumed: the following whitespace run must contain another newline. -/
def blankLineAfter (rest : List Char) : Bool :=
  (rest.takeWhile pyIsSpace).contains '\n'

/-- Capture of the DEX regex: `(.*?)(?:\n\s*\n|\n.*?ARSC)` with
`re.DOTALL`.  The capture ends at the first newline followed by a blank
line or by a later `ARSC`; it may span several lines. -/
def captureDex : List Char → Option (List Char)
  | [] => none
  | c :: rest =>
    if c = '\n' then
      if blankLineAfter rest || hasLit "ARSC".data rest then some []
      else (captureDex rest).map ('\n' :: ·)
    else (captureDex rest).map (c :: ·)

/-- Chain of the DEX regex after the `DEX` literal:
`\s+│.*?\n.*?───.*?\n(.*?)(?:\n\s*\n|\n.*?ARSC)`. -/
def dexTail (l : List Char) : Option (List Char) := do
  let l1 ← run1 pyIsSpace l
  match l1 with
  | '│' :: l2 => do
    let l3 ← findLit ['\n'] l2
    let l4 ← findLit litBorder l3
    let l5 ← findLit ['\n'] l4
    captureDex l5
  | _ => none

/-- The `re.search` for the DEX metrics table. -/
def searchDexTable : List Char → Option (List Char)
  | [] => none
  | c :: rest =>
    if litPre "DEX".data (c :: rest) then
      match dexTail ((c :: rest).drop 3) with
      | some cap => some cap
      | none => searchDexTable rest
    else searchDexTable rest

/-- Capture of the ARSC regex: `(.*?)(?:\n\s*\n|$)` with `re.DOTALL`.
Without `re.MULTILINE` the anchor `$` matches at the end of the text or
just before a final newline. -/
def captureArsc : List Char → Option (List Char)
  | [] => some []
  | ['\n'] => some []
  | c :: rest =>
    if c = '\n' then
      if blankLineAfter rest then some []
      else (captureArsc rest).map ('\n' :: ·)
    else (captureArsc rest).map (c :: ·)

/-- Chain of the ARSC regex after the `ARSC` literal:
`\s+│.*?\n.*?───.*?\n(.*?)(?:\n\s*\n|$)`. -/
def arscTail (l : List Char) : Option (List Char) := do
  let l1 ← run1 pyIsSpace l
  match l1 with
  | '│' :: l2 => do
    let l3 ← findLit ['\n'] l2
    let l4 ← findLit litBorder l3
    let l5 ← findLit ['\n'] l4
    captureArsc l5
  | _ => none

/-- The `re.search` for the ARSC metrics table. -/
def searchArscTable : List Char → Option (List Char)
  | [] => none
  | c :: rest =>
    if litPre "ARSC".data (c :: rest) then
      match arscTail ((c :: rest).drop 4) with
      | some cap => some cap
      | none => searchArscTable rest
    else searchArscTable rest

/-- Python dict assignment `d[k] = v`: update in place or append. -/
def dictSet {α : Type} (k : List Char) (v : α) :
    List (List Char × α) → List (List Char × α)
  | [] => [(k, v)]
  | (k', v') :: rest =>
    if k' = k then (k, v) :: rest else (k', v') :: dictSet k v rest

/-- Python dict lookup `d.get(k)`. -/
def dictGet {α : Type} (k : List Char) : List (List Char × α) → Option α
  | [] => none
  | (k', v') :: rest => if k' = k then some v' else dictGet k rest

/-- The `apk_sizes` pair of dictionaries. -/
structure SizeTables where
  compressed : List (List Char × PyFloat)
  uncompressed : List (List Char × PyFloat)
deriving DecidableEq, Repr

/-- One iteration of the APK row loop.  Rows without the column glyph or
with fewer than 7 cells are skipped; the `total` row is stored under the
reserved key; otherwise the new-side cells (indices 2 and 5) are stored
under the component name when their parsed value is truthy (non-`None`
and nonzero).  `parse_size_value` may raise. -/
def apkProcessLine (st : SizeTables) (line : List Char) :
    Except Unit SizeTables :=
  if '│' ∈ line then
    match (splitOnSep '│' line).map pyStrip with
    | parts =>
      if parts.length < 7 then .ok st
      else
        if pyStrip (parts.getD 0 []) = [] then .ok st
        else
          if pyStrip (parts.getD 0 []) = "total".data then do
            let nc ← parse_size_value (parts.getD 2 [])
            let nu ← parse_size_value (parts.getD 5 [])
            let st1 := match nc with
              | some v =>
                if v.n = 0 then st
                else { st with compressed := dictSet "total".data v st.compressed }
              | none => st
            let st2 := match nu with
              | some v =>
                if v.n = 0 then st1
                else { st1 with uncompressed := dictSet "total".data v st1.uncompressed }
              | none => st1
            .ok st2
          else do
            let nc ← parse_size_value (parts.getD 2 [])
            let nu ← parse_size_value (parts.getD 5 [])
            let st1 := match nc with
              | some v =>
                if v.n = 0 then st
                else
                  { st with
                    compressed := dictSet (pyStrip (parts.getD 0 [])) v st.compressed }
              | none => st
            let st2 := match nu with
              | some v =>
                if v.n = 0 then st1
                else
                  { st1 with
                    uncompressed := dictSet (pyStrip (parts.getD 0 [])) v st1.uncompressed }
              | none => st1
            .ok st2
  else .ok st

/-- Model of `table_content.strip().split('\n')`. -/
def pyLines (l : List Char) : List (List Char) := splitOnSep '\n' (pyStrip l)

/-- The APK table loop over the captured region. -/
def apkProcess (cap : List Char) : Except Unit SizeTables :=
  (pyLines cap).foldlM apkProcessLine ⟨[], []⟩

/-- The accepted DEX metric row keys. -/
def dexVocab : List (List Char) :=
  ["files".data, "strings".data, "types".data, "classes".data,
    "methods".data, "fields".data]

/-- The accepted ARSC metric row keys. -/
def arscVocab : List (List Char) := ["configs".data, "entries".data]

/-- One iteration of the DEX/ARSC row loop: rows with at least 3 cells
whose key is in the vocabulary store the parsed new-side cell (index 2)
when it is not `None` (zero is kept here). -/
def countProcessLine (vocab : List (List Char))
    (st : List (List Char × ℤ)) (line : List Char) : List (List Char × ℤ) :=
  if '│' ∈ line then
    match (splitOnSep '│' line).map pyStrip with
    | parts =>
      if parts.length < 3 then st
      else
        match pyStrip (parts.getD 0 []) with
        | metric =>
          if vocab.contains metric then
            match parse_number_value (parts.getD 2 []) with
            | some v => dictSet metric v st
            | none => st
          else st
  else st

/-- The structured result of one report, as built by the script. -/
structure ParsedReport where
  old_version : List Char
  new_version : List Char
  old_version_code : Option ℤ
  new_version_code : Option ℤ
  apk_compressed : List (List Char × PyFloat)
  apk_uncompressed : List (List Char × PyFloat)
  dex_metrics : List (List Char × ℤ)
  arsc_metrics : List (List Char × ℤ)
deriving DecidableEq, Repr

/-- The function `parse_diffuse_slim_report`.  A missing header line returns the
logged rejection reason; an exception escaping the table loops (the
`ValueError` from `float`) is caught by the surrounding `except` block
and also turns into a rejection reason.  All other absences degrade to
`None` fields or empty tables. -/
def parse_diffuse_slim_report (name content : List Char) :
    Except (List Char) ParsedReport :=
  match searchVersionHeader content with
  | none => .error ("Could not find version info in ".data ++ name)
  | some (ov, nv) =>
    match (match searchApkTable content with
      | none => Except.ok (⟨[], []⟩ : SizeTables)
      | some cap => apkProcess cap) with
    | .error _ => .error ("Failed to parse ".data ++ name)
    | .ok sizes =>
      .ok
        { old_version := ov
          new_version := nv
          old_version_code := (searchVersionCode content).map (·.1)
          new_version_code := (searchVersionCode content).map (·.2)
          apk_compressed := sizes.compressed
          apk_uncompressed := sizes.uncompressed
          dex_metrics :=
            match searchDexTable content with
            | none => []
            | some cap => (pyLines cap).foldl (countProcessLine dexVocab) []
          arsc_metrics :=
            match searchArscTable content with
            | none => []
            | some cap => (pyLines cap).foldl (countProcessLine arscVocab) [] }

/-- The batch loop of `main`: parse every file, keep the successes,
continue past rejections. -/
def parseBatch (files : List (List Char × List Char)) : List ParsedReport :=
  files.filterMap (fun f => (parse_diffuse_slim_report f.1 f.2).toOption)

/-- One point of the rebuilt timeline. -/
structure Snapshot where
  version : List Char
  versionCode : Option ℤ
  compressed : List (List Char × PyFloat)
  uncompressed : List (List Char × PyFloat)
  dex : List (List Char × ℤ)
  arsc : List (List Char × ℤ)
deriving DecidableEq, Repr

/-- Sort key `lambda r: r['new_version_code']`; the default is never
reached on the non-raising path, where every key is `some`. -/
def rkey (r : ParsedReport) : ℤ := r.new_version_code.getD 0

/-- The comparison used by `sorted`, as a relation on reports. -/
def rkeyLe (a b : ParsedReport) : Prop := rkey a ≤ rkey b

instance : DecidableRel rkeyLe := fun a b => by
  unfold rkeyLe; infer_instance

instance : IsTotal ParsedReport rkeyLe :=
  ⟨fun a b => le_total (rkey a) (rkey b)⟩

instance : IsTrans ParsedReport rkeyLe :=
  ⟨fun _ _ _ hab hbc => le_trans hab hbc⟩

/-- The snapshot seeded from the earliest report's old side; the script
reuses that report's (new-side) metric tables for it. -/
def seedSnap (r : ParsedReport) : Snapshot :=
  ⟨r.old_version, r.old_version_code, r.apk_compressed, r.apk_uncompressed,
    r.dex_metrics, r.arsc_metrics⟩

/-- The snapshot appended for a report's new side. -/
def newSnap (r : ParsedReport) : Snapshot :=
  ⟨r.new_version, r.new_version_code, r.apk_compressed, r.apk_uncompressed,
    r.dex_metrics, r.arsc_metrics⟩

/-- The function `build_cumulative_data`.  CPython's `sorted` raises `TypeError` as
soon as a comparison involves a `None` key, which happens exactly when
the list has at least two elements and some key is `None`; this raise is
modelled as `.error ()`.  Otherwise the stable sort is insertion sort
with the non-strict key comparison. -/
def build_cumulative_data (l : List ParsedReport) :
    Except Unit (List Snapshot) :=
  if l = [] then .ok []
  else if 2 ≤ l.length && l.any (fun r => r.new_version_code.isNone) then
    .error ()
  else
    match List.insertionSort rkeyLe l with
    | [] => .ok []
    | first :: rest =>
      .ok (seedSnap first :: (first :: rest).map newSnap)

instance {ε α : Type} [DecidableEq ε] [DecidableEq α] :
    DecidableEq (Except ε α) := fun x y =>
  match x, y with
  | .error a, .error b =>
    if h : a = b then .isTrue (by rw [h]) else
      .isFalse (fun hc => h (Except.error.inj hc))
  | .ok a, .ok b =>
    if h : a = b then .isTrue (by rw [h]) else
      .isFalse (fun hc => h (Except.ok.inj hc))
  | .error _, .ok _ => .isFalse (fun hc => Except.noConfusion hc)
  | .ok _, .error _ => .isFalse (fun hc => Except.noConfusion hc)

/-- The timeline the script assembles from an already-sorted report
list: the seed snapshot for the earliest report's old side, then one
snapshot per report for its new side. -/
def timelineOf : List ParsedReport → List Snapshot
  | [] => []
  | first :: rest => seedSnap first :: (first :: rest).map newSnap

/-- Behaviour of `List.orderedInsert` with the sort-key comparison: inserted before
the first element with a not-smaller key. -/
theorem orderedInsert_le (x y : ParsedReport) (t : List ParsedReport)
    (h : rkey x ≤ rkey y) :
    List.orderedInsert rkeyLe x (y :: t) = x :: y :: t := by
  simp only [List.orderedInsert, rkeyLe]
  rw [if_pos h]

/-- Behaviour of `List.orderedInsert` with the sort-key comparison: skipped past an
element with a smaller key. -/
theorem orderedInsert_gt (x y : ParsedReport) (t : List ParsedReport)
    (h : ¬ rkey x ≤ rkey y) :
    List.orderedInsert rkeyLe x (y :: t) = y :: List.orderedInsert rkeyLe x t := by
  simp only [List.orderedInsert, rkeyLe]
  rw [if_neg h]

/-- On a batch of reports that all carry a version code, the sort of
`build_cumulative_data` does not raise and the result is the seed
snapshot followed by one new-side snapshot per sorted report. -/
theorem build_ok_of_sorted (l : List ParsedReport) (r1 r2 r3 : ParsedReport)
    (b c d : ℤ)
    (h1nc : r1.new_version_code = some b)
    (h2nc : r2.new_version_code = some c)
    (h3nc : r3.new_version_code = some d)
    (hperm : l.Perm [r1, r2, r3])
    (hsort : List.insertionSort rkeyLe l = [r1, r2, r3]) :
    build_cumulative_data l =
      .ok [seedSnap r1, newSnap r1, newSnap r2, newSnap r3] := by
  have hne : l ≠ [] := by
    intro h
    have := hperm.length_eq
    rw [h] at this
    simp at this
  have hany : (l.any fun r => r.new_version_code.isNone) = false := by
    rw [List.any_eq_false]
    intro r hr
    have : r ∈ [r1, r2, r3] := hperm.subset hr
    simp only [List.mem_cons, List.not_mem_nil, or_false] at this
    rcases this with h | h | h <;> simp [h, h1nc, h2nc, h3nc]
  unfold build_cumulative_data
  rw [if_neg hne]
  rw [if_neg (by rw [hany]; simp)]
  rw [hsort]
  rfl

/-- C10: `build_cumulative_data` applied to an empty list of reports
returns an empty timeline and does not fail. -/
theorem claim_C10_empty_build : build_cumulative_data [] = .ok [] := rfl

/-- C9: whenever `build_cumulative_data` returns a timeline for a
non-empty report list, its first two entries carry identical
compressed, uncompressed, dex and arsc tables — the seed snapshot for
the earliest report's old version reuses that report's own new-side
tables — so they can differ only in version and version code. -/
theorem claim_C9_seed_reuses_tables (l : List ParsedReport)
    (t : List Snapshot) (hne : l ≠ [])
    (h : build_cumulative_data l = .ok t) :
    ∃ s0 s1 rest, t = s0 :: s1 :: rest ∧
      s0.compressed = s1.compressed ∧
      s0.uncompressed = s1.uncompressed ∧
      s0.dex = s1.dex ∧ s0.arsc = s1.arsc := by
  unfold build_cumulative_data at h
  rw [if_neg hne] at h
  by_cases herr :
      (2 ≤ l.length && l.any fun r => r.new_version_code.isNone) = true
  · rw [if_pos herr] at h
    exact absurd h (fun hc => Except.noConfusion hc)
  · rw [if_neg herr] at h
    have hlen : (List.insertionSort rkeyLe l).length = l.length :=
      (List.perm_insertionSort rkeyLe l).length_eq
    rcases hs : List.insertionSort rkeyLe l with _ | ⟨first, rest'⟩
    · rw [hs] at hlen
      rcases l with _ | _
      · exact absurd rfl hne
      · simp at hlen
    · rw [hs] at h
      simp only [List.map_cons] at h
      have ht := Except.ok.inj h
      exact ⟨seedSnap first, newSnap first, rest'.map newSnap, ht.symm,
        rfl, rfl, rfl, rfl⟩

/-- Sample report used to witness C9. -/
def w9rep : ParsedReport :=
  ⟨"1.0".data, "1.1".data, some 1, some 2,
    [("dex".data, ⟨2, 1⟩)], [("dex".data, ⟨4, 1⟩)], [("files".data, 1)], []⟩

/-- Witness for C9 at a concrete one-report batch. -/
theorem claim_C9_witness :
    ∃ s0 s1 rest,
      ([seedSnap w9rep, newSnap w9rep] : List Snapshot) = s0 :: s1 :: rest ∧
      s0.compressed = s1.compressed ∧
      s0.uncompressed = s1.uncompressed ∧
      s0.dex = s1.dex ∧ s0.arsc = s1.arsc :=
  claim_C9_seed_reuses_tables [w9rep] [seedSnap w9rep, newSnap w9rep]
    (by simp) (by rfl)

/-- A report carrying both version codes. -/
def c7coded : ParsedReport :=
  ⟨"1.0".data, "1.1".data, some 1, some 2, [], [], [], []⟩

/-- A report whose manifest row was absent, so both codes are `None`. -/
def c7uncoded : ParsedReport :=
  ⟨"1.1".data, "1.2".data, none, none, [], [], [], []⟩

/-- C7 counterexample: on a two-report batch in which one report lacks
its new version code, `build_cumulative_data` does not sort it last —
the `sorted` call raises `TypeError` and the build fails. -/
theorem claim_C7_counterexample :
    build_cumulative_data [c7coded, c7uncoded] = .error () := rfl

/-- C7 amended: when every report carries a new version code, the build
succeeds and returns the timeline of the report list sorted ascending
by that code; but as soon as the batch has at least two reports and any
report lacks a code, the sort raises and the build fails. -/
theorem claim_C7_amended :
    (∀ l : List ParsedReport,
      (∀ r ∈ l, r.new_version_code ≠ none) →
      build_cumulative_data l = .ok (timelineOf (List.insertionSort rkeyLe l)) ∧
        (List.insertionSort rkeyLe l).Perm l ∧
        (List.insertionSort rkeyLe l).Sorted rkeyLe) ∧
    (∀ l : List ParsedReport, 2 ≤ l.length →
      (∃ r ∈ l, r.new_version_code = none) →
      build_cumulative_data l = .error ()) := by
  constructor
  · intro l hall
    refine ⟨?_, List.perm_insertionSort rkeyLe l, List.sorted_insertionSort rkeyLe l⟩
    by_cases hne : l = []
    · subst hne; rfl
    · have hany : (l.any fun r => r.new_version_code.isNone) = false := by
        rw [List.any_eq_false]
        intro r hr
        have := hall r hr
        cases hnc : r.new_version_code
        · exact absurd hnc this
        · simp
      unfold build_cumulative_data
      rw [if_neg hne]
      rw [if_neg (by rw [hany]; simp)]
      have hlen : (List.insertionSort rkeyLe l).length = l.length :=
        (List.perm_insertionSort rkeyLe l).length_eq
      rcases hs : List.insertionSort rkeyLe l with _ | ⟨first, rest'⟩
      · rw [hs] at hlen
        rcases l with _ | _
        · exact absurd rfl hne
        · simp at hlen
      · rfl
  · intro l hlen ⟨r, hr, hnone⟩
    have hne : l ≠ [] := by
      intro h; rw [h] at hlen; simp at hlen
    have hany : (l.any fun r => r.new_version_code.isNone) = true := by
      rw [List.any_eq_true]
      exact ⟨r, hr, by rw [hnone]; rfl⟩
    unfold build_cumulative_data
    rw [if_neg hne]
    rw [if_pos (by rw [hany, Bool.and_true]; exact decide_eq_true hlen)]

/-- Witness for C7 amended, at a concrete fully-coded batch. -/
theorem claim_C7_amended_witness :
    build_cumulative_data [c7coded] =
      .ok (timelineOf (List.insertionSort rkeyLe [c7coded])) ∧
      (List.insertionSort rkeyLe [c7coded]).Perm [c7coded] ∧
      (List.insertionSort rkeyLe [c7coded]).Sorted rkeyLe :=
  claim_C7_amended.1 [c7coded] (by decide)

/-- C1: three reports chained `A→B`, `B→C`, `C→D` with strictly
increasing version codes rebuild, from any input order, the same
4-entry timeline `[A, B, C, D]`, each version exactly once, version
codes strictly increasing. -/
theorem claim_C1_chain_rebuild
    (r1 r2 r3 : ParsedReport) (A B C D : List Char) (a b c d : ℤ)
    (h1o : r1.old_version = A) (h1oc : r1.old_version_code = some a)
    (h1n : r1.new_version = B) (h1nc : r1.new_version_code = some b)
    (h2o : r2.old_version = B) (h2oc : r2.old_version_code = some b)
    (h2n : r2.new_version = C) (h2nc : r2.new_version_code = some c)
    (h3o : r3.old_version = C) (h3oc : r3.old_version_code = some c)
    (h3n : r3.new_version = D) (h3nc : r3.new_version_code = some d)
    (hab : a < b) (hbc : b < c) (hcd : c < d)
    (hnd : ([A, B, C, D] : List (List Char)).Nodup)
    (l : List ParsedReport) (hperm : l.Perm [r1, r2, r3]) :
    ∃ t, build_cumulative_data l = .ok t ∧
      t = [seedSnap r1, newSnap r1, newSnap r2, newSnap r3] ∧
      t.length = l.length + 1 ∧
      t.map Snapshot.version = [A, B, C, D] ∧
      (t.map Snapshot.version).Nodup ∧
      t.map Snapshot.versionCode = [some a, some b, some c, some d] ∧
      List.Chain' (· < ·) (t.filterMap Snapshot.versionCode) := by
  have kb : rkey r1 = b := by simp [rkey, h1nc]
  have kc : rkey r2 = c := by simp [rkey, h2nc]
  have kd : rkey r3 = d := by simp [rkey, h3nc]
  have n12 : r1 ≠ r2 := by
    intro h
    rw [h, h2nc] at h1nc
    have : b = c := Option.some.inj h1nc.symm
    omega
  have n13 : r1 ≠ r3 := by
    intro h
    rw [h, h3nc] at h1nc
    have : b = d := Option.some.inj h1nc.symm
    omega
  have n23 : r2 ≠ r3 := by
    intro h
    rw [h, h3nc] at h2nc
    have : c = d := Option.some.inj h2nc.symm
    omega
  have sort_yz : ∀ u v : ParsedReport, rkey u < rkey v →
      List.insertionSort rkeyLe [u, v] = [u, v] := by
    intro u v huv
    simp only [List.insertionSort, List.orderedInsert, rkeyLe]
    rw [if_pos (le_of_lt huv)]
  have sort_zy : ∀ u v : ParsedReport, rkey u < rkey v →
      List.insertionSort rkeyLe [v, u] = [u, v] := by
    intro u v huv
    simp only [List.insertionSort, List.orderedInsert, rkeyLe]
    rw [if_neg (not_le.mpr huv)]
  have hsort : List.insertionSort rkeyLe l = [r1, r2, r3] := by
    have hl3 : l.length = 3 := by
      have := hperm.length_eq; simpa using this
    rcases l with _ | ⟨x, _ | ⟨y, _ | ⟨z, _ | ⟨w, tl⟩⟩⟩⟩ <;> simp at hl3
    have pair_cases : ∀ u v : ParsedReport, u ≠ v →
        ([y, z] : List ParsedReport).Perm [u, v] →
        (y = u ∧ z = v) ∨ (y = v ∧ z = u) := by
      intro u v huv hp
      have hy : y ∈ [u, v] := hp.subset (by simp)
      simp only [List.mem_cons, List.not_mem_nil, or_false] at hy
      rcases hy with hy | hy
      · have hz : ([z] : List ParsedReport).Perm ([u, v].erase y) := by
          have := (List.cons_perm_iff_perm_erase.mp hp).2
          exact this
        rw [hy, List.erase_cons_head] at hz
        have hz' := List.perm_singleton.mp hz
        simp only [List.cons.injEq, and_true] at hz'
        exact Or.inl ⟨hy, hz'⟩
      · have hz : ([z] : List ParsedReport).Perm ([u, v].erase y) := by
          have := (List.cons_perm_iff_perm_erase.mp hp).2
          exact this
        rw [hy, List.erase_cons, if_neg (by simp [huv]), List.erase_cons_head] at hz
        have hz' := List.perm_singleton.mp hz
        simp only [List.cons.injEq, and_true] at hz'
        exact Or.inr ⟨hy, hz'⟩
    have hx : x ∈ [r1, r2, r3] := hperm.subset (by simp)
    have hyz := (List.cons_perm_iff_perm_erase.mp hperm).2
    simp only [List.mem_cons, List.not_mem_nil, or_false] at hx
    rcases hx with hx | hx | hx
    · rw [hx, List.erase_cons_head] at hyz
      rcases pair_cases r2 r3 n23 hyz with ⟨hy, hz⟩ | ⟨hy, hz⟩ <;> rw [hx, hy, hz]
      · show List.orderedInsert rkeyLe r1 (List.insertionSort rkeyLe [r2, r3]) = _
        rw [sort_yz r2 r3 (by omega), orderedInsert_le r1 r2 _ (by omega)]
      · show List.orderedInsert rkeyLe r1 (List.insertionSort rkeyLe [r3, r2]) = _
        rw [sort_zy r2 r3 (by omega), orderedInsert_le r1 r2 _ (by omega)]
    · rw [hx, List.erase_cons, if_neg (by simp [n12]), List.erase_cons_head] at hyz
      rcases pair_cases r1 r3 n13 hyz with ⟨hy, hz⟩ | ⟨hy, hz⟩ <;> rw [hx, hy, hz]
      · show List.orderedInsert rkeyLe r2 (List.insertionSort rkeyLe [r1, r3]) = _
        rw [sort_yz r1 r3 (by omega), orderedInsert_gt r2 r1 _ (by omega),
          orderedInsert_le r2 r3 _ (by omega)]
      · show List.orderedInsert rkeyLe r2 (List.insertionSort rkeyLe [r3, r1]) = _
        rw [sort_zy r1 r3 (by omega), orderedInsert_gt r2 r1 _ (by omega),
          orderedInsert_le r2 r3 _ (by omega)]
    · rw [hx, List.erase_cons, if_neg (by simp [n13]), List.erase_cons,
        if_neg (by simp [n23]), List.erase_cons_head] at hyz
      rcases pair_cases r1 r2 n12 hyz with ⟨hy, hz⟩ | ⟨hy, hz⟩ <;> rw [hx, hy, hz]
      · show List.orderedInsert rkeyLe r3 (List.insertionSort rkeyLe [r1, r2]) = _
        rw [sort_yz r1 r2 (by omega), orderedInsert_gt r3 r1 _ (by omega),
          orderedInsert_gt r3 r2 _ (by omega)]
        rfl
      · show List.orderedInsert rkeyLe r3 (List.insertionSort rkeyLe [r2, r1]) = _
        rw [sort_zy r1 r2 (by omega), orderedInsert_gt r3 r1 _ (by omega),
          orderedInsert_gt r3 r2 _ (by omega)]
        rfl
  have hbuild := build_ok_of_sorted l r1 r2 r3 b c d h1nc h2nc h3nc hperm hsort
  refine ⟨_, hbuild, rfl, ?_, ?_, ?_, ?_, ?_⟩
  · have := hperm.length_eq; simp at this; simp [this]
  · simp [seedSnap, newSnap, h1o, h1n, h2n, h3n]
  · simpa [seedSnap, newSnap, h1o, h1n, h2n, h3n] using hnd
  · simp [seedSnap, newSnap, h1oc, h1nc, h2nc, h3nc]
  · simp [seedSnap, newSnap, h1oc, h1nc, h2nc, h3nc, List.Chain']
    exact ⟨hab, hbc, hcd⟩

/-- First chained report for the C1 witness. -/
def w1r1 : ParsedReport :=
  ⟨"1.0".data, "1.1".data, some 1, some 2,
    [("dex".data, ⟨2, 1⟩)], [("dex".data, ⟨4, 1⟩)], [("files".data, 1)], []⟩

/-- Second chained report for the C1 witness. -/
def w1r2 : ParsedReport :=
  ⟨"1.1".data, "1.2".data, some 2, some 3, [], [], [], []⟩

/-- Third chained report for the C1 witness. -/
def w1r3 : ParsedReport :=
  ⟨"1.2".data, "1.3".data, some 3, some 4, [], [], [], []⟩

/-- Witness for C1 at a concrete out-of-order batch. -/
theorem claim_C1_witness :
    ∃ t, build_cumulative_data [w1r2, w1r3, w1r1] = .ok t ∧
      t = [seedSnap w1r1, newSnap w1r1, newSnap w1r2, newSnap w1r3] ∧
      t.length = ([w1r2, w1r3, w1r1] : List ParsedReport).length + 1 ∧
      t.map Snapshot.version =
        ["1.0".data, "1.1".data, "1.2".data, "1.3".data] ∧
      (t.map Snapshot.version).Nodup ∧
      t.map Snapshot.versionCode = [some 1, some 2, some 3, some 4] ∧
      List.Chain' (· < ·) (t.filterMap Snapshot.versionCode) :=
  claim_C1_chain_rebuild w1r1 w1r2 w1r3
    "1.0".data "1.1".data "1.2".data "1.3".data 1 2 3 4
    rfl rfl rfl rfl rfl rfl rfl rfl rfl rfl rfl rfl
    (by omega) (by omega) (by omega) (by decide)
    [w1r2, w1r3, w1r1] (by decide)

/-- C5: a report text without the comparison header line is rejected
with a non-empty reason attached (not an uncatchable fault), and the
batch loop of `main` simply continues with the remaining reports. -/
theorem claim_C5_header_rejection (name content : List Char)
    (h : searchVersionHeader content = none) :
    (∃ reason, parse_diffuse_slim_report name content = .error reason ∧
      reason ≠ []) ∧
    ∀ pre post : List (List Char × List Char),
      parseBatch (pre ++ (name, content) :: post) =
        parseBatch pre ++ parseBatch post := by
  have hparse : parse_diffuse_slim_report name content =
      .error ("Could not find version info in ".data ++ name) := by
    unfold parse_diffuse_slim_report
    rw [h]
  constructor
  · exact ⟨_, hparse, by simp⟩
  · intro pre post
    unfold parseBatch
    rw [List.filterMap_append, List.filterMap_cons]
    rw [show (parse_diffuse_slim_report name content).toOption = none by
      rw [hparse]; rfl]

/-- The content used to witness C5. -/
def c5Content : List Char := "hello world".data

/-- Witness for C5 at a concrete header-less report. -/
theorem claim_C5_witness :
    (∃ reason,
      parse_diffuse_slim_report "r".data c5Content = .error reason ∧
      reason ≠ []) ∧
    ∀ pre post : List (List Char × List Char),
      parseBatch (pre ++ ("r".data, c5Content) :: post) =
        parseBatch pre ++ parseBatch post :=
  claim_C5_header_rejection "r".data c5Content (by decide)

/-- A report with a header and an APK table whose captured row holds the
malformed size cell `. MiB`, and with no DEX section. -/
def c6Bad : List Char :=
  ("Diffuse Comparison: 1.0.0 → 2.0.0\nAPK │ compressed │ uncompressed\n" ++
    "───\n a │ b │ . MiB │ c │ d │ 1 MiB │ e\n───\n").data

/-- C6 counterexample: this report lacks the DEX section, yet parsing
does not yield `dex_metrics == {}` — the `float` call on the malformed
APK cell raises and the whole report is rejected, so the absence of the
header line is not the only fatal condition. -/
theorem claim_C6_counterexample :
    searchDexTable c6Bad = none ∧
    parse_diffuse_slim_report "r".data c6Bad =
      .error ("Failed to parse r".data) := by
  constructor
  · decide
  · decide

/-- C6 amended: an absent section yields an empty table for that section
whenever the report parses at all, and a missing header is fatal; but an
exception raised while parsing APK cells also rejects the report, so the
header line's absence is not the only fatal condition. -/
theorem claim_C6_amended :
    (∀ name content r, searchDexTable content = none →
      parse_diffuse_slim_report name content = .ok r →
      r.dex_metrics = []) ∧
    (∀ name content r, searchApkTable content = none →
      parse_diffuse_slim_report name content = .ok r →
      r.apk_compressed = [] ∧ r.apk_uncompressed = []) ∧
    (∀ name content r, searchArscTable content = none →
      parse_diffuse_slim_report name content = .ok r →
      r.arsc_metrics = []) ∧
    (∀ name content, searchVersionHeader content = none →
      ∃ reason, parse_diffuse_slim_report name content = .error reason) := by
  refine ⟨?_, ?_, ?_, ?_⟩
  · intro name content r hdex hok
    unfold parse_diffuse_slim_report at hok
    rcases hh : searchVersionHeader content with _ | ⟨ov, nv⟩ <;> rw [hh] at hok
    · exact absurd hok (fun hc => Except.noConfusion hc)
    · rcases ha : (match searchApkTable content with
          | none => Except.ok (⟨[], []⟩ : SizeTables)
          | some cap => apkProcess cap) with e | sizes <;> rw [ha] at hok
      · exact absurd hok (fun hc => Except.noConfusion hc)
      · have := Except.ok.inj hok
        rw [← this]
        simp only [hdex]
  · intro name content r hapk hok
    unfold parse_diffuse_slim_report at hok
    rcases hh : searchVersionHeader content with _ | ⟨ov, nv⟩ <;> rw [hh] at hok
    · exact absurd hok (fun hc => Except.noConfusion hc)
    · rw [hapk] at hok
      have := Except.ok.inj hok
      rw [← this]
      exact ⟨rfl, rfl⟩
  · intro name content r harsc hok
    unfold parse_diffuse_slim_report at hok
    rcases hh : searchVersionHeader content with _ | ⟨ov, nv⟩ <;> rw [hh] at hok
    · exact absurd hok (fun hc => Except.noConfusion hc)
    · rcases ha : (match searchApkTable content with
          | none => Except.ok (⟨[], []⟩ : SizeTables)
          | some cap => apkProcess cap) with e | sizes <;> rw [ha] at hok
      · exact absurd hok (fun hc => Except.noConfusion hc)
      · have := Except.ok.inj hok
        rw [← this]
        simp only [harsc]
  · intro name content hh
    refine ⟨"Could not find version info in ".data ++ name, ?_⟩
    unfold parse_diffuse_slim_report
    rw [hh]

/-- A header-only report: every section extractor returns `None`. -/
def c6Plain : List Char := "Diffuse Comparison: 1.0.0 → 2.0.0".data

/-- The record the script builds for the header-only report. -/
def c6PlainResult : ParsedReport :=
  ⟨"1.0.0".data, "2.0.0".data, none, none, [], [], [], []⟩

/-- Witness for C6 amended at the concrete header-only report. -/
theorem claim_C6_amended_witness :
    c6PlainResult.dex_metrics = ([] : List (List Char × ℤ)) ∧
    parse_diffuse_slim_report "r".data c6Plain = .ok c6PlainResult :=
  ⟨claim_C6_amended.1 "r".data c6Plain c6PlainResult (by decide) (by decide),
    by decide⟩


/-- A report whose APK table has a `dex` data row, an inner border rule,
then the `total` row with new compressed `5.9 MiB`. -/
def c2Bad : List Char :=
  ("Diffuse Comparison: 1.0.0 → 1.0.1\n\nAPK │ compressed │ uncompressed\n" ++
    "───\n dex │ 1 MiB │ 2 MiB │ +1 MiB │ 3 MiB │ 4 MiB │ +1 MiB\n" ++
    "───\n total │ 5.8 MiB │ 5.9 MiB │ +0.1 MiB │ 8 MiB │ 8.1 MiB │ +0.1 MiB\n").data

/-- The record the script builds for `c2Bad`: the lazy capture ends at
the first data row, so the `total` row is never processed. -/
def c2BadResult : ParsedReport :=
  ⟨"1.0.0".data, "1.0.1".data, none, none,
    [("dex".data, ⟨2, 1⟩)], [("dex".data, ⟨4, 1⟩)], [], []⟩

/-- C2 counterexample: a synthetic report whose APK `total` row carries
new compressed `5.9 MiB` parses successfully, yet
`apk_sizes['compressed']` has no `total` entry at all — the table
regex's lazy capture stops at the first data row when a later border
rule exists, so rows after the inner border are discarded. -/
theorem claim_C2_counterexample :
    parse_diffuse_slim_report "r".data c2Bad = .ok c2BadResult ∧
    dictGet "total".data c2BadResult.apk_compressed = none := by
  constructor
  · decide
  · decide

/-- A report whose captured APK region is exactly the `total` row. -/
def c2Good : List Char :=
  ("Diffuse Comparison: 2.1 → 2.2\n\nAPK │ compressed │ uncompressed\n" ++
    "───\n total │ 5.8 MiB │ 5.9 MiB │ +0.1 MiB │ 8 MiB │ 8.1 MiB │ +0.1 MiB\n───\n").data

/-- The record the script builds for `c2Good`. -/
def c2GoodResult : ParsedReport :=
  ⟨"2.1".data, "2.2".data, none, none,
    [("total".data, ⟨59, 10⟩)], [("total".data, ⟨81, 10⟩)], [], []⟩

/-- C2 amended: within the captured table region, a data row with at
least 7 cells records the new-side compressed cell (index 2) and the
new-side uncompressed cell (index 5), discarding old-side columns,
under the component key — or under the reserved `total` key for the
aggregate row — provided the parsed values are non-null and nonzero;
and a synthetic report whose captured region is the `total` row with
new compressed `5.9 MiB` does yield `compressed.total == 5.9`. -/
theorem claim_C2_amended :
    (∀ (st : SizeTables) (line p0 p1 p2 p3 p4 p5 p6 : List Char)
      (v2 v5 : PyFloat),
      '│' ∈ line →
      (splitOnSep '│' line).map pyStrip = [p0, p1, p2, p3, p4, p5, p6] →
      pyStrip p0 = p0 → p0 ≠ [] → p0 ≠ "total".data →
      parse_size_value p2 = .ok (some v2) → v2.n ≠ 0 →
      parse_size_value p5 = .ok (some v5) → v5.n ≠ 0 →
      apkProcessLine st line =
        .ok ⟨dictSet p0 v2 st.compressed, dictSet p0 v5 st.uncompressed⟩) ∧
    (∀ (st : SizeTables) (line p1 p2 p3 p4 p5 p6 : List Char)
      (v2 v5 : PyFloat),
      '│' ∈ line →
      (splitOnSep '│' line).map pyStrip =
        ["total".data, p1, p2, p3, p4, p5, p6] →
      parse_size_value p2 = .ok (some v2) → v2.n ≠ 0 →
      parse_size_value p5 = .ok (some v5) → v5.n ≠ 0 →
      apkProcessLine st line =
        .ok ⟨dictSet "total".data v2 st.compressed,
          dictSet "total".data v5 st.uncompressed⟩) ∧
    parse_diffuse_slim_report "r".data c2Good = .ok c2GoodResult ∧
    (dictGet "total".data c2GoodResult.apk_compressed).map val =
      some (59 / 10 : ℚ) := by
  refine ⟨?_, ?_, by decide, ?_⟩
  · intro st line p0 p1 p2 p3 p4 p5 p6 v2 v5 hmem hparts hstrip hne htot
      hv2 hv2z hv5 hv5z
    unfold apkProcessLine
    rw [if_pos hmem, hparts]
    simp only [List.length_cons, List.length_nil, List.getD]
    rw [if_neg (by omega)]
    simp only [List.get?_cons_zero, List.get?_cons_succ, Option.getD_some]
    rw [hstrip, if_neg hne, if_neg htot]
    rw [hv2, hv5]
    simp only [Except.instMonad, Bind.bind, Except.bind]
    rw [if_neg hv2z, if_neg hv5z]
  · intro st line p1 p2 p3 p4 p5 p6 v2 v5 hmem hparts hv2 hv2z hv5 hv5z
    unfold apkProcessLine
    rw [if_pos hmem, hparts]
    simp only [List.length_cons, List.length_nil, List.getD]
    rw [if_neg (by omega)]
    simp only [List.get?_cons_zero, List.get?_cons_succ, Option.getD_some]
    rw [show pyStrip "total".data = "total".data by decide,
      if_neg (by decide), if_pos rfl]
    rw [hv2, hv5]
    simp only [Except.instMonad, Bind.bind, Except.bind]
    rw [if_neg hv2z, if_neg hv5z]
  · show some (val ⟨59, 10⟩) = some (59 / 10 : ℚ)
    norm_num [val]

/-- The APK data row used to witness C2 amended. -/
def c2Row : List Char :=
  " dex │ 1 MiB │ 2 MiB │ +1 MiB │ 3 MiB │ 4 MiB │ +1 MiB".data

/-- Witness for C2 amended at a concrete data row. -/
theorem claim_C2_amended_witness :
    apkProcessLine ⟨[], []⟩ c2Row =
      .ok ⟨[("dex".data, ⟨2, 1⟩)], [("dex".data, ⟨4, 1⟩)]⟩ :=
  claim_C2_amended.1 ⟨[], []⟩ c2Row
    "dex".data "1 MiB".data "2 MiB".data "+1 MiB".data
    "3 MiB".data "4 MiB".data "+1 MiB".data ⟨2, 1⟩ ⟨4, 1⟩
    (by decide) (by decide) (by decide) (by decide) (by decide)
    (by decide) (by decide) (by decide) (by decide)

/-- Evaluation of `takeWhile` over a concatenation whose first part satisfies `p` and
whose second part starts with a failing character. -/
theorem tw_append_all (p : Char → Bool) (l1 l2 : List Char)
    (h1 : ∀ c ∈ l1, p c = true)
    (h2 : ∀ x xs, l2 = x :: xs → p x = false) :
    (l1 ++ l2).takeWhile p = l1 := by
  induction l1 with
  | nil =>
    rcases l2 with _ | ⟨x, xs⟩
    · rfl
    · simp [List.takeWhile_cons, h2 x xs rfl]
  | cons c t ih =>
    have hc := h1 c (by simp)
    simp only [List.cons_append, List.takeWhile_cons, hc, if_true]
    rw [ih (fun d hd => h1 d (by simp [hd]))]

/-- Evaluation of `dropWhile` over the same concatenation: all of the first part is
dropped and the second part survives. -/
theorem dw_append_all (p : Char → Bool) (l1 l2 : List Char)
    (h1 : ∀ c ∈ l1, p c = true)
    (h2 : ∀ x xs, l2 = x :: xs → p x = false) :
    (l1 ++ l2).dropWhile p = l2 := by
  induction l1 with
  | nil =>
    rcases l2 with _ | ⟨x, xs⟩
    · rfl
    · simp [List.dropWhile_cons, h2 x xs rfl]
  | cons c t ih =>
    have hc := h1 c (by simp)
    simp only [List.cons_append, List.dropWhile_cons, hc, if_true]
    exact ih (fun d hd => h1 d (by simp [hd]))

/-- The scan `dropWhile` never crosses into a second part whose head fails `p`. -/
theorem dw_append_stop (p : Char → Bool) (l1 l2 : List Char)
    (h2 : ∀ x xs, l2 = x :: xs → p x = false) :
    (l1 ++ l2).dropWhile p = l1.dropWhile p ++ l2 := by
  induction l1 with
  | nil =>
    rcases l2 with _ | ⟨x, xs⟩
    · rfl
    · simp [List.dropWhile_cons, h2 x xs rfl]
  | cons c t ih =>
    by_cases hc : p c
    · simp only [List.cons_append, List.dropWhile_cons, hc, if_pos]
      exact ih
    · simp [List.dropWhile_cons, hc]

/-- A list whose head fails `p` is untouched by `dropWhile`. -/
theorem dw_nohead (p : Char → Bool) (l : List Char)
    (h : ∀ x xs, l = x :: xs → p x = false) :
    l.dropWhile p = l := by
  rcases l with _ | ⟨x, xs⟩
  · rfl
  · simp [List.dropWhile_cons, h x xs rfl]

/-- The scan `dropWhile` is a `drop`. -/
theorem dw_eq_drop (p : Char → Bool) (l : List Char) :
    l.dropWhile p = l.drop (l.takeWhile p).length := by
  induction l with
  | nil => rfl
  | cons c t ih =>
    by_cases hc : p c
    · simp [List.dropWhile_cons, List.takeWhile_cons, hc, ih]
    · simp [List.dropWhile_cons, List.takeWhile_cons, hc]

/-- Stripping trailing characters yields a prefix, expressed as `take`. -/
theorem dropTrailing_eq_take (p : Char → Bool) (l : List Char) :
    ∃ k, (l.reverse.dropWhile p).reverse = l.take k := by
  refine ⟨l.length - (l.reverse.takeWhile p).length, ?_⟩
  rw [dw_eq_drop p l.reverse]
  rw [← List.rdrop_eq_reverse_drop_reverse]
  rw [List.rdrop]

/-- A `[\d.]` character is not whitespace. -/
theorem digitdot_not_space (c : Char) (h : isDigitDot c = true) :
    pyIsSpace c = false := by
  by_contra hns
  have hsp : pyIsSpace c = true := by
    revert hns; cases pyIsSpace c <;> simp
  simp only [pyIsSpace, Bool.or_eq_true, decide_eq_true_eq] at hsp
  rcases hsp with ((((h1 | h1) | h1) | h1) | h1) | h1 <;> subst h1 <;>
    exact absurd h (by decide)

/-- A whitespace character is not in `[\d.]`. -/
theorem space_not_digitdot (c : Char) (h : pyIsSpace c = true) :
    isDigitDot c = false := by
  by_contra hns
  have hdd : isDigitDot c = true := by
    revert hns; cases isDigitDot c <;> simp
  rw [digitdot_not_space c hdd] at h
  cases h

/-- Evaluation of `str.strip()` of `pre ++ mid ++ post` when `mid` is non-empty and
neither starts nor ends with whitespace: leading stripping acts on
`pre` only and trailing stripping on `post` only. -/
theorem pyStrip_decomp (pre mid post : List Char) (hne : mid ≠ [])
    (hhead : ∀ x xs, mid = x :: xs → pyIsSpace x = false)
    (hlast : ∀ x xs, mid.reverse = x :: xs → pyIsSpace x = false) :
    pyStrip (pre ++ mid ++ post) =
      pre.dropWhile pyIsSpace ++ mid ++
        (post.reverse.dropWhile pyIsSpace).reverse := by
  unfold pyStrip
  rw [List.append_assoc]
  rw [dw_append_stop pyIsSpace pre (mid ++ post) (by
    intro x xs hx
    rcases mid with _ | ⟨m0, mt⟩
    · exact absurd rfl hne
    · rw [List.cons_append] at hx
      injection hx with hx1 hx2
      subst hx1
      exact hhead m0 mt rfl)]
  rw [← List.append_assoc]
  rw [List.reverse_append]
  rw [dw_append_stop pyIsSpace post.reverse (pre.dropWhile pyIsSpace ++ mid).reverse (by
    intro x xs hx
    rw [List.reverse_append] at hx
    rcases hm : mid.reverse with _ | ⟨r0, rt⟩
    · rw [List.reverse_eq_nil_iff] at hm
      exact absurd hm hne
    · rw [hm, List.cons_append] at hx
      injection hx with hx1 hx2
      subst hx1
      exact hlast r0 rt hm)]
  rw [List.reverse_append, List.reverse_reverse, List.append_assoc]

/-- A list all of whose characters satisfy `p` is fully dropped. -/
theorem dw_all_nil (p : Char → Bool) (l : List Char)
    (h : ∀ c ∈ l, p c = true) : l.dropWhile p = [] := by
  have := dw_append_all p l [] h (by intro x xs hx; cases hx)
  rwa [List.append_nil] at this

/-- The alternation recognises each unit suffix at the start of itself. -/
theorem matchSizeUnit_exact (u : SizeUnit) :
    matchSizeUnit (unitChars u) = some u := by
  cases u <;> rfl

/-- The first character of a unit suffix fails both `[\d.]` and `\s`. -/
theorem unit_head_plain (u : SizeUnit) :
    ∀ x xs, unitChars u = x :: xs →
      isDigitDot x = false ∧ pyIsSpace x = false := by
  cases u <;> (intro x xs hx; cases hx; exact ⟨by decide, by decide⟩)

/-- The size regex search on `<number><ws><unit>`: the greedy run is the
number, the whitespace is skipped, and the unit is recognised. -/
theorem searchSize_exact (num w2 : List Char) (u : SizeUnit)
    (hne : num ≠ []) (hdd : ∀ c ∈ num, isDigitDot c = true)
    (hw2 : ∀ c ∈ w2, pyIsSpace c = true) :
    searchSize (num ++ w2 ++ unitChars u) = some (num, u) := by
  have hstop : ∀ x xs, w2 ++ unitChars u = x :: xs → isDigitDot x = false := by
    intro x xs hx
    rcases w2 with _ | ⟨c, t⟩
    · rw [List.nil_append] at hx
      exact ((unit_head_plain u) x xs hx).1
    · rw [List.cons_append] at hx
      injection hx with hx1 hx2
      subst hx1
      exact space_not_digitdot c (hw2 c (by simp))
  have hdrop1 : (num ++ (w2 ++ unitChars u)).dropWhile isDigitDot =
      w2 ++ unitChars u := dw_append_all isDigitDot num _ hdd hstop
  have hdrop2 : (w2 ++ unitChars u).dropWhile pyIsSpace = unitChars u :=
    dw_append_all pyIsSpace w2 _ hw2
      (fun x xs hx => ((unit_head_plain u) x xs hx).2)
  have htake : (num ++ (w2 ++ unitChars u)).takeWhile isDigitDot = num :=
    tw_append_all isDigitDot num _ hdd hstop
  rcases num with _ | ⟨n0, nt⟩
  · exact absurd rfl hne
  · have h0 : isDigitDot n0 = true := hdd n0 (by simp)
    rw [List.append_assoc, List.cons_append]
    show searchSize (n0 :: (nt ++ (w2 ++ unitChars u))) = _
    simp only [searchSize]
    rw [if_pos h0]
    rw [show ((n0 :: (nt ++ (w2 ++ unitChars u))).dropWhile isDigitDot) =
      w2 ++ unitChars u by rw [← List.cons_append]; exact hdrop1]
    rw [hdrop2, matchSizeUnit_exact]
    rw [show ((n0 :: (nt ++ (w2 ++ unitChars u))).takeWhile isDigitDot) =
      n0 :: nt by rw [← List.cons_append]; exact htake]

/-- C3: a token of decimal number plus unit in `{B, KiB, MiB}`, with
arbitrary surrounding whitespace and fixed-width padding, parses to the
magnitude in MiB — `MiB` unchanged, `KiB` divided by 1024, `B` divided
by `1024 * 1024` — and the spec's four examples hold. -/
theorem claim_C3_size_conversion :
    (∀ (w1 num w2 w3 : List Char) (u : SizeUnit),
      (∀ c ∈ w1, pyIsSpace c = true) → (∀ c ∈ w2, pyIsSpace c = true) →
      (∀ c ∈ w3, pyIsSpace c = true) →
      num ≠ [] → (∀ c ∈ num, isDigitDot c = true) →
      num.count '.' ≤ 1 → (∃ c ∈ num, c.isDigit = true) →
      ∃ w, pyFloat num = some w ∧
        parse_size_value (w1 ++ num ++ w2 ++ unitChars u ++ w3) =
          .ok (some (convUnit u w))) ∧
    (∀ p : PyFloat, val (convUnit .mib p) = val p ∧
      val (convUnit .kib p) = val p / 1024 ∧
      val (convUnit .b p) = val p / (1024 * 1024)) ∧
    (parse_size_value "3.2 MiB".data = .ok (some ⟨32, 10⟩) ∧
      val ⟨32, 10⟩ = (3.2 : ℚ)) ∧
    (parse_size_value "469 KiB".data = .ok (some ⟨469, 1024⟩) ∧
      val ⟨469, 1024⟩ = 469 / 1024) ∧
    (parse_size_value "912 B".data = .ok (some ⟨912, 1048576⟩) ∧
      val ⟨912, 1048576⟩ = 912 / (1024 * 1024)) ∧
    parse_size_value "garbage".data = .ok none := by
  refine ⟨?_, ?_, ⟨by decide, by norm_num [val]⟩, ⟨by decide, by norm_num [val]⟩,
    ⟨by decide, by norm_num [val]⟩, by decide⟩
  · intro w1 num w2 w3 u hw1 hw2 hw3 hne hdd hcount hdig
    have hpyf : pyFloat num =
        some ⟨digitsToNat (num.takeWhile (fun c => !(c = '.'))) *
            10 ^ ((num.dropWhile (fun c => !(c = '.'))).drop 1).length +
          digitsToNat ((num.dropWhile (fun c => !(c = '.'))).drop 1),
          10 ^ ((num.dropWhile (fun c => !(c = '.'))).drop 1).length⟩ := by
      unfold pyFloat
      rw [if_pos]
      simp only [Bool.and_eq_true, List.any_eq_true, List.all_eq_true,
        decide_eq_true_eq]
      refine ⟨⟨?_, hcount⟩, hdd⟩
      obtain ⟨c, hc, hcd⟩ := hdig
      exact ⟨c, hc, hcd⟩
    refine ⟨_, hpyf, ?_⟩
    have hmid_ne : num ++ w2 ++ unitChars u ≠ [] := by
      rcases num with _ | _
      · exact absurd rfl hne
      · simp
    have htok : w1 ++ num ++ w2 ++ unitChars u ++ w3 =
        w1 ++ (num ++ w2 ++ unitChars u) ++ w3 := by
      simp [List.append_assoc]
    rw [htok]
    have htok_ne : w1 ++ (num ++ w2 ++ unitChars u) ++ w3 ≠ [] := by
      simp only [ne_eq, List.append_eq_nil]
      intro ⟨⟨_, ⟨⟨hm, _⟩, _⟩⟩, _⟩
      exact hne hm
    unfold parse_size_value
    rw [if_neg htok_ne]
    rw [pyStrip_decomp w1 (num ++ w2 ++ unitChars u) w3 hmid_ne
      (by
        intro x xs hx
        rcases num with _ | ⟨n0, nt⟩
        · exact absurd rfl hne
        · rw [List.cons_append, List.cons_append] at hx
          injection hx with hx1 hx2
          subst hx1
          exact digitdot_not_space n0 (hdd n0 (by simp)))
      (by
        intro x xs hx
        rw [List.reverse_append] at hx
        rcases u with _ | _ | _ <;>
          (injection hx with hx1 hx2; subst hx1; decide))]
    rw [dw_all_nil pyIsSpace w1 hw1]
    rw [dw_all_nil pyIsSpace w3.reverse
      (fun c hc => hw3 c (List.mem_reverse.mp hc))]
    rw [List.nil_append, List.reverse_nil, List.append_nil]
    rw [searchSize_exact num w2 u hne hdd hw2]
    show (match pyFloat num with
      | none => Except.error ()
      | some v => Except.ok (some (convUnit u v))) = _
    rw [hpyf]
  · intro p
    refine ⟨rfl, ?_, ?_⟩
    · show ((p.n : ℚ) / ((p.d * 1024 : ℕ) : ℚ)) = (p.n : ℚ) / (p.d : ℚ) / 1024
      push_cast
      rw [div_div]
    · show ((p.n : ℚ) / ((p.d * (1024 * 1024) : ℕ) : ℚ)) =
        (p.n : ℚ) / (p.d : ℚ) / (1024 * 1024)
      push_cast
      rw [div_div]
      norm_num

/-- Witness for C3 at a concrete padded token. -/
theorem claim_C3_witness :
    ∃ w, pyFloat "7".data = some w ∧
      parse_size_value ("  ".data ++ "7".data ++ " ".data ++
        unitChars .kib ++ " ".data) = .ok (some (convUnit .kib w)) :=
  claim_C3_size_conversion.1 "  ".data "7".data " ".data " ".data .kib
    (by decide) (by decide) (by decide) (by decide) (by decide)
    (by decide) (by decide)

/-- The characters of the thousands-separator groups `(,\d+)*`. -/
def grouped (groups : List (List Char)) : List Char :=
  groups.foldr (fun g acc => ',' :: (g ++ acc)) []

/-- A digit is neither a sign character nor whitespace. -/
theorem digit_plain (c : Char) (h : c.isDigit = true) :
    (c = '+') = False ∧ (c = '-') = False ∧ pyIsSpace c = false := by
  refine ⟨?_, ?_, ?_⟩
  · simp only [eq_iff_iff, iff_false]
    intro hc; subst hc; exact absurd h (by decide)
  · simp only [eq_iff_iff, iff_false]
    intro hc; subst hc; exact absurd h (by decide)
  · exact digitdot_not_space c (by simp [isDigitDot, h])

/-- The group region starts with a comma or, when empty, with the
trailing text, whose first character is not a digit. -/
theorem grouped_head (groups : List (List Char)) (post : List Char)
    (hpost : ∀ c ∈ post.take 2, c.isDigit = false) :
    ∀ x xs, grouped groups ++ post = x :: xs → x.isDigit = false := by
  intro x xs hx
  rcases groups with _ | ⟨g, gs⟩
  · rcases post with _ | ⟨c, t⟩
    · cases hx
    · rw [show grouped [] ++ c :: t = c :: t from rfl] at hx
      injection hx with hx1 _
      rw [← hx1]
      exact hpost c (by simp)
  · rw [show grouped (g :: gs) ++ post = ',' :: (g ++ grouped gs ++ post) by
      simp [grouped]] at hx
    injection hx with hx1 _
    subst hx1
    decide

/-- The `(?:,\d+)*` collector over a well-formed group region followed
by text whose first two characters are not digits: it collects exactly
the groups' digits. -/
theorem commaDigits_grouped (groups : List (List Char)) (post : List Char)
    (hg : ∀ g ∈ groups, g ≠ [] ∧ ∀ c ∈ g, c.isDigit = true)
    (hpost : ∀ c ∈ post.take 2, c.isDigit = false) :
    commaDigits (grouped groups ++ post) = groups.join := by
  induction groups with
  | nil =>
    show commaDigits post = []
    rcases post with _ | ⟨c, t⟩
    · simp only [commaDigits]
    · simp only [commaDigits]
      by_cases hc : c = ','
      · rw [if_pos hc]
        rw [if_pos (by
          rcases t with _ | ⟨y, ys⟩
          · rfl
          · rw [List.takeWhile_cons, if_neg]
            rw [hpost y (by simp [List.take])]
            simp)]
      · rw [if_neg hc]
  | cons g gs ih =>
    have hgne := (hg g (by simp)).1
    have hgd := (hg g (by simp)).2
    have hstop : ∀ x xs, grouped gs ++ post = x :: xs → Char.isDigit x = false :=
      grouped_head gs post hpost
    have htw : (g ++ (grouped gs ++ post)).takeWhile Char.isDigit = g :=
      tw_append_all Char.isDigit g _ hgd hstop
    have hdw : (g ++ (grouped gs ++ post)).dropWhile Char.isDigit =
        grouped gs ++ post :=
      dw_append_all Char.isDigit g _ hgd hstop
    rw [show grouped (g :: gs) ++ post = ',' :: (g ++ (grouped gs ++ post)) by
      simp [grouped]]
    simp only [commaDigits, if_true]
    rw [htw, if_neg hgne, hdw,
      ih (fun g' hg' => hg g' (by simp [hg']))]
    simp

/-- The integer search skips any run of characters that are neither
digits nor sign characters. -/
theorem searchNum_skip (pre rest : List Char)
    (h : ∀ c ∈ pre, c.isDigit = false ∧ c ≠ '+' ∧ c ≠ '-') :
    searchNum (pre ++ rest) = searchNum rest := by
  induction pre with
  | nil => rfl
  | cons c t ih =>
    obtain ⟨hcd, hcp, hcm⟩ := h c (by simp)
    show searchNum (c :: (t ++ rest)) = _
    simp only [searchNum]
    rw [if_neg (by
      simp only [Bool.or_eq_true, decide_eq_true_eq]
      rintro (hc | hc) <;> [exact hcp hc; exact hcm hc])]
    rw [if_neg (by rw [hcd]; simp)]
    exact ih (fun d hd => h d (by simp [hd]))

/-- The integer search fails on digit-free text. -/
theorem searchNum_none (l : List Char)
    (h : ∀ c ∈ l, c.isDigit = false) : searchNum l = none := by
  induction l with
  | nil => rfl
  | cons c t ih =>
    have htw : t.takeWhile Char.isDigit = [] := by
      rcases t with _ | ⟨y, ys⟩
      · rfl
      · rw [List.takeWhile_cons, if_neg (by rw [h y (by simp)]; simp)]
    simp only [searchNum]
    by_cases hs : (c = '+' || c = '-') = true
    · rw [if_pos hs, htw]
      exact ih (fun d hd => h d (by simp [hd]))
    · rw [if_neg hs, if_neg (by rw [h c (by simp)]; simp)]
      exact ih (fun d hd => h d (by simp [hd]))

/-- The integer search on an unsigned number region: greedy digits plus
comma groups, converted with the commas removed. -/
theorem searchNum_unsigned (ds : List Char) (groups : List (List Char))
    (post : List Char) (hne : ds ≠ []) (hds : ∀ c ∈ ds, c.isDigit = true)
    (hg : ∀ g ∈ groups, g ≠ [] ∧ ∀ c ∈ g, c.isDigit = true)
    (hpost : ∀ c ∈ post.take 2, c.isDigit = false) :
    searchNum (ds ++ grouped groups ++ post) =
      some (digitsToNat (ds ++ groups.join) : ℤ) := by
  have hstop := grouped_head groups post hpost
  have htw : (ds ++ (grouped groups ++ post)).takeWhile Char.isDigit = ds :=
    tw_append_all Char.isDigit ds _ hds hstop
  have hdw : (ds ++ (grouped groups ++ post)).dropWhile Char.isDigit =
      grouped groups ++ post :=
    dw_append_all Char.isDigit ds _ hds hstop
  rcases ds with _ | ⟨d0, dt⟩
  · exact absurd rfl hne
  · have h0 := hds d0 (by simp)
    obtain ⟨h0p, h0m, _⟩ := digit_plain d0 h0
    rw [List.append_assoc, List.cons_append]
    show searchNum (d0 :: (dt ++ (grouped groups ++ post))) = _
    simp only [searchNum]
    rw [if_neg (by simp [h0p, h0m])]
    rw [if_pos h0]
    rw [show ((d0 :: (dt ++ (grouped groups ++ post))).takeWhile Char.isDigit) =
      d0 :: dt by rw [← List.cons_append]; exact htw]
    rw [show ((d0 :: (dt ++ (grouped groups ++ post))).dropWhile Char.isDigit) =
      grouped groups ++ post by rw [← List.cons_append]; exact hdw]
    rw [commaDigits_grouped groups post hg hpost]

/-- The integer search on a signed number region. -/
theorem searchNum_signed (sgn : Char) (ds : List Char)
    (groups : List (List Char)) (post : List Char)
    (hsgn : sgn = '+' ∨ sgn = '-') (hne : ds ≠ [])
    (hds : ∀ c ∈ ds, c.isDigit = true)
    (hg : ∀ g ∈ groups, g ≠ [] ∧ ∀ c ∈ g, c.isDigit = true)
    (hpost : ∀ c ∈ post.take 2, c.isDigit = false) :
    searchNum (sgn :: (ds ++ grouped groups) ++ post) =
      some (if sgn = '-' then -(digitsToNat (ds ++ groups.join) : ℤ)
        else (digitsToNat (ds ++ groups.join) : ℤ)) := by
  have hstop := grouped_head groups post hpost
  have htw : (ds ++ (grouped groups ++ post)).takeWhile Char.isDigit = ds :=
    tw_append_all Char.isDigit ds _ hds hstop
  have hdw : (ds ++ (grouped groups ++ post)).dropWhile Char.isDigit =
      grouped groups ++ post :=
    dw_append_all Char.isDigit ds _ hds hstop
  rcases ds with _ | ⟨d0, dt⟩
  · exact absurd rfl hne
  · rw [List.cons_append, List.append_assoc, List.cons_append]
    show searchNum (sgn :: (d0 :: dt ++ (grouped groups ++ post))) = _
    simp only [searchNum]
    rw [if_pos (by rcases hsgn with h | h <;> simp [h])]
    rw [show ((d0 :: dt ++ (grouped groups ++ post)).takeWhile Char.isDigit) =
      d0 :: dt from htw]
    rw [show ((d0 :: dt ++ (grouped groups ++ post)).dropWhile Char.isDigit) =
      grouped groups ++ post from hdw]
    show some (if sgn = '-' then
        -(digitsToNat (d0 :: dt ++ commaDigits (grouped groups ++ post)) : ℤ)
      else (digitsToNat (d0 :: dt ++ commaDigits (grouped groups ++ post)) : ℤ)) = _
    rw [commaDigits_grouped groups post hg hpost]

/-- Stripping a token whose number region contains no whitespace:
leading whitespace is dropped from the prefix and the trailing text is
cut to some prefix of itself. -/
theorem pyStrip_token (pre mid post : List Char)
    (hmid_ne : mid ≠ []) (hmid_nws : ∀ c ∈ mid, pyIsSpace c = false) :
    ∃ k, pyStrip (pre ++ mid ++ post) =
      pre.dropWhile pyIsSpace ++ mid ++ post.take k := by
  obtain ⟨k, hk⟩ := dropTrailing_eq_take pyIsSpace post
  refine ⟨k, ?_⟩
  rw [pyStrip_decomp pre mid post hmid_ne
    (fun x xs hx => hmid_nws x (by rw [hx]; simp))
    (fun x xs hx => hmid_nws x (List.mem_reverse.mp (by rw [hx]; simp)))]
  rw [hk]

/-- Every character of the group region is a comma or a digit. -/
theorem mem_grouped (groups : List (List Char))
    (hg : ∀ g ∈ groups, g ≠ [] ∧ ∀ c ∈ g, c.isDigit = true) :
    ∀ c ∈ grouped groups, c = ',' ∨ c.isDigit = true := by
  induction groups with
  | nil => intro c hc; cases hc
  | cons g gs ih =>
    intro c hc
    rw [show grouped (g :: gs) = ',' :: (g ++ grouped gs) by simp [grouped]] at hc
    rcases List.mem_cons.mp hc with hc | hc
    · exact Or.inl hc
    · rcases List.mem_append.mp hc with hc | hc
      · exact Or.inr ((hg g (by simp)).2 c hc)
      · exact ih (fun g' hg' => hg g' (by simp [hg'])) c hc

/-- A prefix of a prefix: membership in `take k` then `take 2` implies
membership in `take 2` of the original. -/
theorem mem_take_take (post : List Char) (k : ℕ) (c : Char)
    (hc : c ∈ (post.take k).take 2) : c ∈ post.take 2 := by
  rw [List.take_take] at hc
  have heq : post.take (min 2 k) = (post.take 2).take (min 2 k) := by
    rw [List.take_take]
    congr 1
    omega
  rw [heq] at hc
  exact List.take_subset _ _ hc

/-- C4: `parse_number_value` returns the first signed or unsigned
integer in the token — contiguous digits with optional comma
thousands-separator groups and an optional leading sign — discarding
the text that follows (e.g. a parenthetical breakdown), and returns
null when the token has no digit at all; the spec's four examples
hold. -/
theorem claim_C4_count_extraction :
    (∀ (pre ds : List Char) (groups : List (List Char)) (post : List Char),
      (∀ c ∈ pre, c.isDigit = false ∧ c ≠ '+' ∧ c ≠ '-') →
      ds ≠ [] → (∀ c ∈ ds, c.isDigit = true) →
      (∀ g ∈ groups, g ≠ [] ∧ ∀ c ∈ g, c.isDigit = true) →
      (∀ c ∈ post.take 2, c.isDigit = false) →
      parse_number_value (pre ++ (ds ++ grouped groups) ++ post) =
        some (digitsToNat (ds ++ groups.join) : ℤ) ∧
      parse_number_value (pre ++ ('+' :: (ds ++ grouped groups)) ++ post) =
        some (digitsToNat (ds ++ groups.join) : ℤ) ∧
      parse_number_value (pre ++ ('-' :: (ds ++ grouped groups)) ++ post) =
        some (-(digitsToNat (ds ++ groups.join) : ℤ))) ∧
    (∀ s : List Char, (∀ c ∈ s, c.isDigit = false) →
      parse_number_value s = none) ∧
    parse_number_value "21,481".data = some 21481 ∧
    parse_number_value "+7 (+123 -116)".data = some 7 ∧
    parse_number_value "  0  ".data = some 0 ∧
    parse_number_value "".data = none := by
  have huniv : ∀ (pre ds : List Char) (groups : List (List Char))
      (post : List Char),
      (∀ c ∈ pre, c.isDigit = false ∧ c ≠ '+' ∧ c ≠ '-') →
      ds ≠ [] → (∀ c ∈ ds, c.isDigit = true) →
      (∀ g ∈ groups, g ≠ [] ∧ ∀ c ∈ g, c.isDigit = true) →
      (∀ c ∈ post.take 2, c.isDigit = false) →
      parse_number_value (pre ++ (ds ++ grouped groups) ++ post) =
        some (digitsToNat (ds ++ groups.join) : ℤ) ∧
      parse_number_value (pre ++ ('+' :: (ds ++ grouped groups)) ++ post) =
        some (digitsToNat (ds ++ groups.join) : ℤ) ∧
      parse_number_value (pre ++ ('-' :: (ds ++ grouped groups)) ++ post) =
        some (-(digitsToNat (ds ++ groups.join) : ℤ)) := by
    intro pre ds groups post hpre hne hds hg hpost
    have hmid_nws : ∀ c ∈ ds ++ grouped groups, pyIsSpace c = false := by
      intro c hc
      rcases List.mem_append.mp hc with hc | hc
      · exact (digit_plain c (hds c hc)).2.2
      · rcases mem_grouped groups hg c hc with hc' | hc'
        · rw [hc']; decide
        · exact (digit_plain c hc').2.2
    have hmid_ne : ds ++ grouped groups ≠ [] := by
      rcases ds with _ | _
      · exact absurd rfl hne
      · simp
    have hpre' : ∀ c ∈ pre.dropWhile pyIsSpace,
        c.isDigit = false ∧ c ≠ '+' ∧ c ≠ '-' :=
      fun c hc => hpre c ((List.dropWhile_sublist pyIsSpace).subset hc)
    refine ⟨?_, ?_, ?_⟩
    · obtain ⟨k, hk⟩ := pyStrip_token pre (ds ++ grouped groups) post
        hmid_ne hmid_nws
      have htok_ne : pre ++ (ds ++ grouped groups) ++ post ≠ [] := by
        simp only [ne_eq, List.append_eq_nil]
        intro ⟨⟨_, hm⟩, _⟩
        exact hne hm.1
      unfold parse_number_value
      rw [if_neg htok_ne, hk, List.append_assoc]
      rw [searchNum_skip _ _ hpre']
      exact searchNum_unsigned ds groups (post.take k) hne hds hg
        (fun c hc => hpost c (mem_take_take post k c hc))
    · have hm_nws : ∀ c ∈ '+' :: (ds ++ grouped groups), pyIsSpace c = false := by
        intro c hc
        rcases List.mem_cons.mp hc with hc | hc
        · rw [hc]; decide
        · exact hmid_nws c hc
      obtain ⟨k, hk⟩ := pyStrip_token pre ('+' :: (ds ++ grouped groups)) post
        (by simp) hm_nws
      have htok_ne : pre ++ ('+' :: (ds ++ grouped groups)) ++ post ≠ [] := by
        simp only [ne_eq, List.append_eq_nil]
        intro ⟨⟨_, hm⟩, _⟩
        cases hm
      unfold parse_number_value
      rw [if_neg htok_ne, hk, List.append_assoc]
      rw [searchNum_skip _ _ hpre']
      rw [show ('+' :: (ds ++ grouped groups)) ++ post.take k =
        '+' :: (ds ++ grouped groups) ++ post.take k from rfl]
      rw [searchNum_signed '+' ds groups (post.take k) (Or.inl rfl) hne hds hg
        (fun c hc => hpost c (mem_take_take post k c hc))]
      rw [if_neg (by decide)]
    · have hm_nws : ∀ c ∈ '-' :: (ds ++ grouped groups), pyIsSpace c = false := by
        intro c hc
        rcases List.mem_cons.mp hc with hc | hc
        · rw [hc]; decide
        · exact hmid_nws c hc
      obtain ⟨k, hk⟩ := pyStrip_token pre ('-' :: (ds ++ grouped groups)) post
        (by simp) hm_nws
      have htok_ne : pre ++ ('-' :: (ds ++ grouped groups)) ++ post ≠ [] := by
        simp only [ne_eq, List.append_eq_nil]
        intro ⟨⟨_, hm⟩, _⟩
        cases hm
      unfold parse_number_value
      rw [if_neg htok_ne, hk, List.append_assoc]
      rw [searchNum_skip _ _ hpre']
      rw [show ('-' :: (ds ++ grouped groups)) ++ post.take k =
        '-' :: (ds ++ grouped groups) ++ post.take k from rfl]
      rw [searchNum_signed '-' ds groups (post.take k) (Or.inr rfl) hne hds hg
        (fun c hc => hpost c (mem_take_take post k c hc))]
      rw [if_pos rfl]
  refine ⟨huniv, ?_, ?_, ?_, ?_, by decide⟩
  · intro s hs
    unfold parse_number_value
    by_cases hse : s = []
    · rw [if_pos hse]
    · rw [if_neg hse]
      refine searchNum_none _ (fun c hc => hs c ?_)
      unfold pyStrip at hc
      rw [List.mem_reverse] at hc
      have hc2 := (List.dropWhile_sublist pyIsSpace).subset hc
      rw [List.mem_reverse] at hc2
      exact (List.dropWhile_sublist pyIsSpace).subset hc2
  · have h := (huniv [] "21".data ["481".data] []
      (by decide) (by decide) (by decide) (by decide) (by decide)).1
    rw [show ("21,481".data : List Char) =
      [] ++ ("21".data ++ grouped ["481".data]) ++ [] by decide]
    rw [h]
    decide
  · have h := (huniv [] "7".data [] " (+123 -116)".data
      (by decide) (by decide) (by decide) (by decide) (by decide)).2.1
    rw [show ("+7 (+123 -116)".data : List Char) =
      [] ++ ('+' :: ("7".data ++ grouped [])) ++ " (+123 -116)".data by decide]
    rw [h]
    decide
  · have h := (huniv "  ".data "0".data [] "  ".data
      (by decide) (by decide) (by decide) (by decide) (by decide)).1
    rw [show ("  0  ".data : List Char) =
      "  ".data ++ ("0".data ++ grouped []) ++ "  ".data by decide]
    rw [h]
    decide

/-- Witness for C4 at a concrete prefixed comma-grouped token. -/
theorem claim_C4_witness :
    parse_number_value ("x".data ++ ("21".data ++ grouped ["481".data]) ++
        " (+1 -2)".data) =
      some (digitsToNat ("21".data ++ (["481".data] : List (List Char)).join) : ℤ) ∧
    parse_number_value ("x".data ++ ('+' :: ("21".data ++ grouped ["481".data])) ++
        " (+1 -2)".data) =
      some (digitsToNat ("21".data ++ (["481".data] : List (List Char)).join) : ℤ) ∧
    parse_number_value ("x".data ++ ('-' :: ("21".data ++ grouped ["481".data])) ++
        " (+1 -2)".data) =
      some (-(digitsToNat ("21".data ++ (["481".data] : List (List Char)).join) : ℤ)) :=
  claim_C4_count_extraction.1 "x".data "21".data ["481".data] " (+1 -2)".data
    (by decide) (by decide) (by decide) (by decide) (by decide)

/-- C8 counterexample: on the pathological token `. MiB` the size
regex matches with the run `.`, and `float('.')` raises `ValueError`
out of `parse_size_value` — so the function does not return null for
every unrecognised input; it can raise. -/
theorem claim_C8_counterexample :
    parse_size_value ". MiB".data = .error () := by decide

/-- The run captured by the size regex is drawn from `[\d.]`. -/
theorem searchSize_run_digitdot (l run : List Char) (u : SizeUnit)
    (h : searchSize l = some (run, u)) : ∀ c ∈ run, isDigitDot c = true := by
  induction l with
  | nil => cases h
  | cons c rest ih =>
    by_cases hc : isDigitDot c
    · rw [show searchSize (c :: rest) =
        (match matchSizeUnit (((c :: rest).dropWhile isDigitDot).dropWhile
            pyIsSpace) with
          | some u => some ((c :: rest).takeWhile isDigitDot, u)
          | none => searchSize rest) by
        simp only [searchSize]; rw [if_pos hc]] at h
      rcases hm : matchSizeUnit (((c :: rest).dropWhile isDigitDot).dropWhile
          pyIsSpace) with _ | u' <;> rw [hm] at h
      · exact ih h
      · injection h with h1
        injection h1 with h2 h3
        intro d hd
        rw [← h2] at hd
        exact List.mem_takeWhile_imp hd
    · rw [show searchSize (c :: rest) = searchSize rest by
        simp only [searchSize]; rw [if_neg hc]] at h
      exact ih h

/-- C8 amended: `parse_size_value` returns null when the size regex
finds no match, returns a value when the matched digit-and-dot run is a
well-formed decimal, and raises `ValueError` exactly when the matched
run has more than one dot or no digit (e.g. `. MiB`); the raise is
caught by the per-report handler, which rejects the whole report. -/
theorem claim_C8_amended :
    (∀ s : List Char, searchSize (pyStrip s) = none →
      parse_size_value s = .ok none) ∧
    (∀ s : List Char, parse_size_value s = .error () ↔
      ∃ run u, searchSize (pyStrip s) = some (run, u) ∧
        (1 < run.count '.' ∨ ∀ c ∈ run, c.isDigit = false)) := by
  constructor
  · intro s h
    unfold parse_size_value
    by_cases hse : s = []
    · rw [if_pos hse]
    · rw [if_neg hse, h]
  · intro s
    unfold parse_size_value
    by_cases hse : s = []
    · rw [if_pos hse]
      refine iff_of_false (fun h => by cases h) ?_
      rintro ⟨run, u, hru, _⟩
      rw [hse] at hru
      cases hru
    · rw [if_neg hse]
      rcases hs : searchSize (pyStrip s) with _ | ⟨run, u⟩
      · refine iff_of_false (fun h => by cases h) ?_
        rintro ⟨run, u, hru, _⟩
        cases hru
      · have hdd := searchSize_run_digitdot (pyStrip s) run u hs
        have hall : run.all isDigitDot = true := by
          rw [List.all_eq_true]
          exact hdd
        show (match pyFloat run with
          | none => Except.error ()
          | some v => Except.ok (some (convUnit u v))) = Except.error () ↔ _
        rcases hp : pyFloat run with _ | w
        · refine iff_of_true rfl ⟨run, u, rfl, ?_⟩
          unfold pyFloat at hp
          rcases hcond : (run.any Char.isDigit &&
              decide (run.count '.' ≤ 1) && run.all isDigitDot) with _ | _
          · rw [hall, Bool.and_true] at hcond
            rcases hany : run.any Char.isDigit with _ | _
            · exact Or.inr (by
                intro c hc
                have hnd := List.any_eq_false.mp hany c hc
                revert hnd
                cases c.isDigit <;> simp)
            · rw [hany, Bool.true_and] at hcond
              refine Or.inl ?_
              have : ¬ run.count '.' ≤ 1 := by
                intro hle
                rw [decide_eq_true hle] at hcond
                cases hcond
              omega
          · rw [if_pos hcond] at hp
            cases hp
        · refine iff_of_false (fun h => by cases h) ?_
          rintro ⟨run', u', hru, hbad⟩
          injection hru with h1
          injection h1 with h2 h3
          subst h2
          unfold pyFloat at hp
          have hcond : (run.any Char.isDigit &&
              decide (run.count '.' ≤ 1) && run.all isDigitDot) = true := by
            by_contra hc
            rw [if_neg hc] at hp
            cases hp
          simp only [Bool.and_eq_true, List.any_eq_true,
            decide_eq_true_eq] at hcond
          obtain ⟨⟨⟨c, hc, hcd⟩, hcnt⟩, _⟩ := hcond
          rcases hbad with hbad | hbad
          · omega
          · rw [hbad c hc] at hcd
            cases hcd

/-- Witness for C8 amended at a concrete matchless token. -/
theorem claim_C8_amended_witness :
    parse_size_value "xyz".data = .ok none :=
  claim_C8_amended.1 "xyz".data (by decide)
